import Mathlib

/-!
Shallow embedding of the `grid-demo` world model
(`src/grid_demo/world.py`, `src/grid_demo/projection.py`,
`src/pathfinder/worldmanager.py`).

Cell values (materials) are integers: `Material.AIR = 0`, `Material.WALL = 1`
(`world.py`, `class Material(IntEnum)`).  A numpy `ndarray` is modelled as a
shape vector together with a cell function over storage coordinates; machine
floats never matter here because the grid only ever stores small integer
material values.  Python exceptions are modelled with `Except`: every fallible
operation returns `Except PyErr _`, and the error constructor records which
failure branch of the source fired.
-/

/-- The material value `Material.AIR` (`world.py` line 17). -/
def Material.AIR : ℤ := 0

/-- The material value `Material.WALL` (`world.py` line 18). -/
def Material.WALL : ℤ := 1

/-- The failure branches of the Python source, named after the spec's error
taxonomy (spec §7).  Each constructor corresponds to one concrete raise site:

* `invalidShape` — the `ValueError` raised by `WorldModelND.__init__` when a
  shape extent is `<= 0` (`world.py` line 34);
* `dimensionMismatch` — the `AssertionError` raised by
  `WorldModelND._normalize_point_input` when a point's length differs from the
  grid dimension (`world.py` line 111);
* `invalidRegion` — the `AssertionError` raised by
  `WorldModelND._check_rect_ordering` when `p <= q` fails on some axis
  (`world.py` line 120);
* `indexError` — the `IndexError` numpy raises when an advanced-indexing
  coordinate is outside `[-s, s)` for extent `s`;
* `shapeMismatch` — the error numpy raises when the block assigned by
  `WorldModelND.replace` does not fit the target region;
* `axisCount` — the `AssertionError` raised by `ProjectMD.projection` when the
  projection requests more axes than the source grid has
  (`projection.py` line 54). -/
inductive PyErr where
  | invalidShape
  | dimensionMismatch
  | invalidRegion
  | indexError
  | shapeMismatch
  | axisCount
deriving DecidableEq

/-- A dense numpy array: a shape vector and a value for every (storage-order)
coordinate vector.  Only coordinates `j` with `j.length = shape.length` and
`j i < shape i` are meaningful; the function is total for convenience. -/
structure NDArray where
  shape : List ℕ
  cells : List ℕ → ℤ

/-- Model of `np.arange(a, b)`: the integers `a, a+1, …, b-1` (empty when `b ≤ a`). -/
def arange (a b : ℤ) : List ℤ :=
  (List.range (b - a).toNat).map fun (k : ℕ) => a + (k : ℤ)

/-- Resolution of a (possibly negative) numpy index against axis extent `s`:
an index `j < 0` addresses cell `s + j` (numpy wraparound). -/
def normIdx (s : ℕ) (j : ℤ) : ℕ :=
  if j < 0 then ((s : ℤ) + j).toNat else j.toNat

/-- numpy accepts an integer index `j` on an axis of extent `s`
iff `-s ≤ j < s`. -/
def idxOK (s : ℕ) (j : ℤ) : Bool :=
  decide (-(s : ℤ) ≤ j ∧ j < (s : ℤ))

/-- The upper-bound clipping in `WorldModelND.fill` / `WorldModelND.query`
(`world.py` lines 134-135 and 168-169): given the exclusive ends `q1 = q + 1`,
`if (self._grid.shape < q).any(): q = self._grid.shape` — note the *whole*
vector is replaced by the shape as soon as one axis exceeds it. -/
def clipEnd (shape : List ℕ) (q1 : List ℤ) : List ℤ :=
  if (shape.zip q1).any (fun sq => decide ((sq.1 : ℤ) < sq.2)) then
    shape.map (fun (s : ℕ) => (s : ℤ))
  else q1

/-- Per-axis index lists of the meshgrid built by the region operations
(`np.meshgrid(*starmap(np.arange, zip(p, q)), indexing="ij")`,
`world.py` line 137), with negative indices already resolved against the
shape.  `axisIdxLists shape p b` has, for each axis, the list of resolved
indices `arange p_i b_i`. -/
def axisIdxLists (shape : List ℕ) (p b : List ℤ) : List (List ℕ) :=
  (shape.zip ((p.zip b).map fun ab => arange ab.1 ab.2)).map
    fun sr => sr.2.map (normIdx sr.1)

/-- The bounds check numpy performs on the meshgrid indices: every index on
axis `i` must satisfy `-s_i ≤ j < s_i`. -/
def idxBoundsOK (shape : List ℕ) (p b : List ℤ) : Bool :=
  (shape.zip ((p.zip b).map fun ab => arange ab.1 ab.2)).all
    fun sr => sr.2.all (idxOK sr.1)

/-- Membership of a concrete coordinate vector `j` in the Cartesian product of
per-axis index lists (the set of cells addressed by the meshgrid). -/
def inRegionB (nrs : List (List ℕ)) (j : List ℕ) : Bool :=
  decide (j.length = nrs.length) && ((nrs.zip j).all fun ri => decide (ri.2 ∈ ri.1))

/-- Position of `x` in an axis index list (used to pull the matching element
out of a replacement block: numpy assigns `block[k]` to the cell addressed by
the `k`-th meshgrid index). -/
def posOf (l : List ℕ) (x : ℕ) : ℕ :=
  l.findIdx fun y => decide (y = x)

/-- Model of `WorldModelND` (`world.py` lines 21-48): the fields stored by
`__init__` — `_grid_max = np.array(shape) - 1`, `_dimension = len(shape)` and
the dense grid `_grid`. -/
structure WorldModelND where
  grid_max : List ℤ
  dimension : ℕ
  grid : NDArray

namespace WorldModelND

/-- Model of `WorldModelND.__init__(shape, grid=None)` (`world.py` lines 27-48):
rejects a shape with a non-positive extent (`ValueError`, modelled by
`PyErr.invalidShape`), otherwise stores `grid_max = shape - 1`,
`dimension = len(shape)` and either the supplied grid or an all-zero
(= all-AIR) grid of the given shape. -/
def init (shape : List ℤ) (grid : Option NDArray) : Except PyErr WorldModelND :=
  if shape.any (fun s => decide (s ≤ 0)) then
    .error .invalidShape
  else
    .ok { grid_max := shape.map (fun s => s - 1)
          dimension := shape.length
          grid := match grid with
            | none => { shape := shape.map Int.toNat, cells := fun _ => 0 }
            | some g => g }

/-- Model of the `WorldModelND.shape` property (`world.py` line 67): the shape of the
stored grid. -/
def shape (w : WorldModelND) : List ℕ := w.grid.shape

/-- Model of the `WorldModelND.gmax` property (`world.py` line 75). -/
def gmax (w : WorldModelND) : List ℤ := w.grid_max

/-- Model of `WorldModelND._normalize_point_input` (`world.py` lines 104-114): asserts
that the point has as many coordinates as the grid has dimensions
(`PyErr.dimensionMismatch` on failure).  The `None` passthrough used for the
optional `q` of `query` is not needed by any claim and is not modelled. -/
def normalizePoint (w : WorldModelND) (p : List ℤ) : Except PyErr (List ℤ) :=
  if p.length = w.dimension then .ok p else .error .dimensionMismatch

/-- Model of `WorldModelND._check_rect_ordering` (`world.py` lines 116-120): asserts
`(p <= q).sum() == self.dimension`, i.e. the number of axes with `p_i ≤ q_i`
equals the dimension (`PyErr.invalidRegion` on failure). -/
def checkRect (w : WorldModelND) (p q : List ℤ) : Except PyErr Unit :=
  if ((p.zip q).countP fun ab => decide (ab.1 ≤ ab.2)) = w.dimension then
    .ok ()
  else .error .invalidRegion

/-- Model of `WorldModelND.fill` (`world.py` lines 122-138): normalize both corners,
check the ordering, clip the exclusive end `q + 1` with `clipEnd`, then set
every cell addressed by the meshgrid over `[p_i, b_i)` to `material`.  The
write itself cannot partially happen: numpy validates all indices before
assigning, which the model reflects by erroring before producing a new
world. -/
def fill (w : WorldModelND) (p q : List ℤ) (material : ℤ) :
    Except PyErr WorldModelND := do
  let p ← w.normalizePoint p
  let q ← w.normalizePoint q
  w.checkRect p q
  let b := clipEnd w.grid.shape (q.map (· + 1))
  if idxBoundsOK w.grid.shape p b then
    let nrs := axisIdxLists w.grid.shape p b
    .ok { w with grid := { shape := w.grid.shape
                           cells := fun j =>
                             if inRegionB nrs j then material
                             else w.grid.cells j } }
  else .error .indexError

/-- Model of `WorldModelND.point` (`world.py` lines 140-147): `fill(p, p, material)`. -/
def point (w : WorldModelND) (p : List ℤ) (material : ℤ) :
    Except PyErr WorldModelND :=
  w.fill p p material

/-- Model of `WorldModelND.all` (`world.py` lines 149-153): a copy of the whole
grid. -/
def all (w : WorldModelND) : NDArray := w.grid

/-- Model of `WorldModelND.query` (`world.py` lines 155-172) with an explicit upper
corner (the Python default `q=None` sets `q = p` and is not needed by any
claim): same checks and clipping as `fill`, then return the dense block of
the addressed region.  The block's entry at position `k` is the source cell
addressed by the `k_i`-th index of axis `i`'s index list. -/
def query (w : WorldModelND) (p q : List ℤ) : Except PyErr NDArray := do
  let p ← w.normalizePoint p
  let q ← w.normalizePoint q
  w.checkRect p q
  let b := clipEnd w.grid.shape (q.map (· + 1))
  if idxBoundsOK w.grid.shape p b then
    let nrs := axisIdxLists w.grid.shape p b
    .ok { shape := nrs.map List.length
          cells := fun k => w.grid.cells ((nrs.zip k).map fun rk => rk.1.getD rk.2 0) }
  else .error .indexError

/-- Model of `WorldModelND.replace` (`world.py` lines 174-188): same corner checks as
`fill` but **no clipping** of `q + 1`; the cells addressed by the meshgrid
receive the corresponding entries of `grid` (the replacement block).  In
numpy's fancy-index assignment the value block is broadcast against the shape
of the indexing result *first* (a mismatch raises the shape-mismatch
`ValueError` while the mapping iterator is built) and the indices are
validated against the axis bounds only afterwards (`PyErr.indexError`), so
the model checks the block shape before the index bounds; block broadcasting
beyond an exact shape match is not exercised by this repository and not
modelled. -/
def replace (w : WorldModelND) (p q : List ℤ) (block : NDArray) :
    Except PyErr WorldModelND := do
  let p ← w.normalizePoint p
  let q ← w.normalizePoint q
  w.checkRect p q
  let b := q.map (· + 1)
  let nrs := axisIdxLists w.grid.shape p b
  if block.shape = nrs.map List.length then
    if idxBoundsOK w.grid.shape p b then
      .ok { w with grid := { shape := w.grid.shape
                             cells := fun j =>
                               if inRegionB nrs j then
                                 block.cells ((nrs.zip j).map fun ri => posOf ri.1 ri.2)
                               else w.grid.cells j } }
    else .error .indexError
  else .error .shapeMismatch

/-- Model of `WorldModelND.save` (`world.py` lines 85-91): `np.save(handle, self._grid)`
writes exactly the dense grid, so the serialized form is the array itself. -/
def save (w : WorldModelND) : NDArray := w.grid

/-- Model of `WorldModelND.load` (`world.py` lines 93-102): read the array back and
rebuild a world via `cls(grid.shape, grid)`. -/
def load (a : NDArray) : Except PyErr WorldModelND :=
  init (a.shape.map fun (s : ℕ) => (s : ℤ)) (some a)

/-- Well-formedness of a world as established by `__init__`: the cached
dimension and maximum-coordinate vector agree with the stored grid's shape,
and every extent is positive. -/
def wf (w : WorldModelND) : Prop :=
  w.dimension = w.grid.shape.length ∧
  w.grid_max = w.grid.shape.map (fun (s : ℕ) => (s : ℤ) - 1) ∧
  ∀ s ∈ w.grid.shape, 0 < s

instance (w : WorldModelND) : Decidable w.wf := by
  unfold wf; infer_instance

end WorldModelND

/-- Model of `WorldManager` (`worldmanager.py` lines 14-27): owns the current world and
the currently selected paint material. -/
structure WorldManager where
  world : WorldModelND
  current_material : ℤ

namespace WorldManager

/-- Model of the `WorldManager.size` property (`worldmanager.py` lines 29-32): a shortcut
for `self.world.gmax`, i.e. the *maximum coordinates*, not the shape. -/
def size (m : WorldManager) : List ℤ := m.world.gmax

/-- Model of `WorldManager.resize` (`worldmanager.py` lines 34-51): if
`(new_shape != self.size).any()` build a fresh world of shape `new_shape`,
copy `query(zeros, min_shape)` of the old world into it via `replace` when
that block has no zero extent (`(common.shape != zero).all()`), install it and
return `True`; otherwise return `False` and keep the current world. -/
def resize (m : WorldManager) (new_shape : List ℤ) :
    Except PyErr (WorldManager × Bool) :=
  if (new_shape.zip m.size).any (fun ab => decide (ab.1 ≠ ab.2)) then do
    let new_world ← WorldModelND.init new_shape none
    let min_shape := (m.size.zip new_shape).map fun ab => min ab.1 ab.2
    let zero : List ℤ := List.replicate min_shape.length 0
    let common ← m.world.query zero min_shape
    let new_world ←
      if (common.shape.zip zero).all (fun ab => decide ((ab.1 : ℤ) ≠ ab.2)) then
        new_world.replace zero min_shape common
      else
        pure new_world
    pure ({ world := new_world, current_material := m.current_material }, true)
  else
    pure (m, false)

end WorldManager

/-- Model of `np.unique(axes)` (`projection.py` line 37): the distinct values of
`axes`, sorted ascending. -/
def npUnique (l : List ℕ) : List ℕ :=
  l.dedup.insertionSort (· ≤ ·)

/-- Model of `np.delete(grid_shape, self.axes)` (`projection.py` line 58): drop the
entries of `l` whose *position* lies in `ax`. -/
def npDelete (l : List ℕ) (ax : List ℕ) : List ℕ :=
  (l.enum.filter fun ia => decide (ia.1 ∉ ax)).map Prod.snd

/-- All coordinate vectors of a given shape, in ascending row-major
(flattened-index) order: the order in which `np.ndindex` visits them and in
which `np.reshape(·, prod)` lays a block out. -/
def coordEnum : List ℕ → List (List ℕ)
  | [] => [[]]
  | s :: rest => (List.range s).flatMap fun i => (coordEnum rest).map fun c => i :: c

/-- The coordinates of `c` on the kept axes `ax` (the components a projection
output coordinate constrains). -/
def keptCoords (ax : List ℕ) (c : List ℕ) : List ℕ :=
  ax.map fun a => c.getD a 0

/-- The source coordinate addressed by `grid[full_index]`
(`ProjectMD._get_full_index`, `projection.py` lines 39-51) at collapsed
coordinates `c`: axis `a` carries `idx`'s component when `a` is a kept axis,
and otherwise the component of `c` for the `a`-th collapsed axis (the number
of non-kept axes before `a`). -/
def mergeIdx (ax : List ℕ) (d : ℕ) (idx c : List ℕ) : List ℕ :=
  (List.range d).map fun a =>
    if a ∈ ax then idx.getD (posOf ax a) 0
    else c.getD ((List.range a).countP fun b => decide (b ∉ ax)) 0

/-- Model of `ProjectMD.projection` (`projection.py` lines 31-69) with the axis set
already stored by `__init__` as `np.unique(axes)`: assert
`len(grid.shape) >= len(self.axes)`, take the output shape
`grid_shape[self.axes]` (an axis value out of range makes numpy raise), and
for every output coordinate flatten the slice of the source grid with the
kept axes pinned (`np.reshape(grid[full_index], np.prod(slice_shape))`,
row-major over the collapsed axes) and take its first non-AIR entry,
defaulting to AIR. -/
def ProjectMD.projection (axes : List ℕ) (g : NDArray) : Except PyErr NDArray :=
  if g.shape.length < (npUnique axes).length then .error .axisCount
  else if (npUnique axes).all (fun a => decide (a < g.shape.length)) then
    .ok { shape := (npUnique axes).map fun a => g.shape.getD a 0
          cells := fun idx =>
            (((coordEnum (npDelete g.shape (npUnique axes))).map fun c =>
                g.cells (mergeIdx (npUnique axes) g.shape.length idx c)).find?
              fun v => decide (v ≠ 0)).getD 0 }
  else .error .indexError


/-! ### Generic list bridging lemmas -/

theorem length_arange (a b : ℤ) : (arange a b).length = (b - a).toNat := by
  rw [arange, List.length_map, List.length_range]

theorem mem_arange {a b x : ℤ} : x ∈ arange a b ↔ a ≤ x ∧ x < b := by
  rw [arange, List.mem_map]
  constructor
  · rintro ⟨k, hk, rfl⟩
    rw [List.mem_range] at hk
    omega
  · intro h
    refine ⟨(x - a).toNat, ?_, ?_⟩
    · rw [List.mem_range]; omega
    · omega

theorem arange_getD {a b : ℤ} {k : ℕ} (h : k < (b - a).toNat) :
    (arange a b).getD k 0 = a + (k : ℤ) := by
  rw [arange, List.getD_eq_getElem?_getD, List.getElem?_map,
    List.getElem?_range (by simpa using h)]
  rfl

theorem getD_map_of_lt {α β : Type} (f : α → β) {l : List α} {i : ℕ}
    (h : i < l.length) (d : α) (d' : β) :
    (l.map f).getD i d' = f (l.getD i d) := by
  simp [List.getD_eq_getElem?_getD, List.getElem?_map,
    List.getElem?_eq_getElem h]

theorem getD_zip_of_lt {α β : Type} {l₁ : List α} {l₂ : List β} {i : ℕ}
    (h₁ : i < l₁.length) (h₂ : i < l₂.length) (d₁ : α) (d₂ : β) :
    (l₁.zip l₂).getD i (d₁, d₂) = (l₁.getD i d₁, l₂.getD i d₂) := by
  have hz : i < (l₁.zip l₂).length := by
    rw [List.length_zip]; omega
  simp [List.getD_eq_getElem?_getD, List.getElem?_eq_getElem, h₁, h₂, hz,
    List.getElem_zip]

theorem zip_all_getD {α β : Type} (f : α × β → Bool) (d₁ : α) (d₂ : β) :
    ∀ (l₁ : List α) (l₂ : List β),
      ((l₁.zip l₂).all f = true ↔
        ∀ i, i < l₁.length → i < l₂.length → f (l₁.getD i d₁, l₂.getD i d₂) = true)
  | [], l₂ => by simp
  | a :: l₁, [] => by simp
  | a :: l₁, b :: l₂ => by
    simp only [List.zip_cons_cons, List.all_cons, Bool.and_eq_true,
      zip_all_getD f d₁ d₂ l₁ l₂]
    constructor
    · rintro ⟨h0, h⟩ i hi₁ hi₂
      cases i with
      | zero => exact h0
      | succ i => exact h i (by simpa using hi₁) (by simpa using hi₂)
    · intro h
      exact ⟨h 0 (by simp) (by simp),
        fun i hi₁ hi₂ => h (i + 1) (by simpa using hi₁) (by simpa using hi₂)⟩

theorem zip_any_getD {α β : Type} (f : α × β → Bool) (d₁ : α) (d₂ : β) :
    ∀ (l₁ : List α) (l₂ : List β),
      ((l₁.zip l₂).any f = true ↔
        ∃ i, i < l₁.length ∧ i < l₂.length ∧ f (l₁.getD i d₁, l₂.getD i d₂) = true)
  | [], l₂ => by simp
  | a :: l₁, [] => by simp
  | a :: l₁, b :: l₂ => by
    simp only [List.zip_cons_cons, List.any_cons, Bool.or_eq_true,
      zip_any_getD f d₁ d₂ l₁ l₂]
    constructor
    · rintro (h0 | ⟨i, hi₁, hi₂, hf⟩)
      · exact ⟨0, by simp, by simp, h0⟩
      · exact ⟨i + 1, by simpa using hi₁, by simpa using hi₂, hf⟩
    · rintro ⟨i, hi₁, hi₂, hf⟩
      cases i with
      | zero => exact Or.inl hf
      | succ i => exact Or.inr ⟨i, by simpa using hi₁, by simpa using hi₂, hf⟩

theorem list_ext_getD {α : Type} {l₁ l₂ : List α} (d : α)
    (hlen : l₁.length = l₂.length)
    (h : ∀ i, i < l₁.length → l₁.getD i d = l₂.getD i d) : l₁ = l₂ := by
  apply List.ext_getElem hlen
  intro i h₁ h₂
  have := h i h₁
  rwa [List.getD_eq_getElem?_getD, List.getD_eq_getElem?_getD,
    List.getElem?_eq_getElem h₁, List.getElem?_eq_getElem h₂] at this

theorem getD_eq_getElem {α : Type} {l : List α} {i : ℕ} (h : i < l.length) (d : α) :
    l.getD i d = l[i] := by
  rw [List.getD_eq_getElem?_getD, List.getElem?_eq_getElem h]
  rfl

theorem bind_ok_red {ε α β : Type} (a : α) (f : α → Except ε β) :
    (Except.ok a >>= f : Except ε β) = f a := rfl

theorem bind_error_red {ε α β : Type} (e : ε) (f : α → Except ε β) :
    (Except.error e >>= f : Except ε β) = Except.error e := rfl

/-! ### Spec-side helper vocabulary

These definitions only appear in theorem statements; they spell out, in plain
arithmetic, which cells the meshgrid machinery addresses. -/

/-- The extent, per axis, of the half-open box `[p_i, b_i)`. -/
def extents (p b : List ℤ) : List ℕ :=
  (p.zip b).map fun ab => (ab.2 - ab.1).toNat

/-- The source coordinate addressed by offset `k` into the box starting at
`p` (all components of `p` nonnegative). -/
def addOff (p : List ℤ) (k : List ℕ) : List ℕ :=
  (p.zip k).map fun ak => (ak.1 + (ak.2 : ℤ)).toNat

/-- The cell a (possibly negative) point `p` resolves to under numpy index
wraparound: component `i` is `p_i` when `p_i ≥ 0` and `s_i + p_i` when
`p_i < 0`. -/
def normPt (shape : List ℕ) (p : List ℤ) : List ℕ :=
  (shape.zip p).map fun sp => normIdx sp.1 sp.2

/-! ### Bridging the meshgrid machinery to per-axis arithmetic -/

theorem mem_normRange {s : ℕ} {p b : ℤ} (hp : 0 ≤ p) {x : ℕ} :
    (x ∈ (arange p b).map (normIdx s)) ↔ (p ≤ (x : ℤ) ∧ (x : ℤ) < b) := by
  rw [List.mem_map]
  constructor
  · rintro ⟨y, hy, rfl⟩
    rw [mem_arange] at hy
    unfold normIdx
    rw [if_neg (by omega)]
    constructor <;> omega
  · intro h
    refine ⟨(x : ℤ), mem_arange.mpr ⟨h.1, h.2⟩, ?_⟩
    unfold normIdx
    rw [if_neg (by omega)]
    omega

theorem axisIdxLists_length {shape : List ℕ} {p b : List ℤ}
    (hp : p.length = shape.length) (hb : b.length = shape.length) :
    (axisIdxLists shape p b).length = shape.length := by
  unfold axisIdxLists
  rw [List.length_map, List.length_zip, List.length_map, List.length_zip]
  omega

theorem axisIdxLists_getD {shape : List ℕ} {p b : List ℤ} {i : ℕ}
    (hp : p.length = shape.length) (hb : b.length = shape.length)
    (hi : i < shape.length) :
    (axisIdxLists shape p b).getD i [] =
      (arange (p.getD i 0) (b.getD i 0)).map (normIdx (shape.getD i 0)) := by
  have h₁ : i < (p.zip b).length := by rw [List.length_zip]; omega
  have h₂ : i < ((p.zip b).map fun ab => arange ab.1 ab.2).length := by
    rw [List.length_map]; omega
  have h₃ : i < (shape.zip ((p.zip b).map fun ab => arange ab.1 ab.2)).length := by
    rw [List.length_zip]; omega
  unfold axisIdxLists
  rw [getD_map_of_lt _ h₃ (0, []) [], getD_zip_of_lt hi h₂ 0 [],
    getD_map_of_lt _ h₁ (0, 0) [], getD_zip_of_lt (by omega) (by omega) 0 0]

theorem extents_length {p b : List ℤ} (h : b.length = p.length) :
    (extents p b).length = p.length := by
  unfold extents
  rw [List.length_map, List.length_zip]
  omega

theorem extents_getD {p b : List ℤ} {i : ℕ}
    (hi : i < p.length) (hb : i < b.length) :
    (extents p b).getD i 0 = (b.getD i 0 - p.getD i 0).toNat := by
  have h₁ : i < (p.zip b).length := by rw [List.length_zip]; omega
  unfold extents
  rw [getD_map_of_lt _ h₁ (0, 0) 0, getD_zip_of_lt hi hb 0 0]

theorem axisIdxLists_map_length {shape : List ℕ} {p b : List ℤ}
    (hp : p.length = shape.length) (hb : b.length = shape.length) :
    (axisIdxLists shape p b).map List.length = extents p b := by
  apply list_ext_getD 0
  · rw [List.length_map, axisIdxLists_length hp hb, extents_length (by omega)]
    omega
  · intro i hi
    rw [List.length_map, axisIdxLists_length hp hb] at hi
    rw [getD_map_of_lt _ (by rw [axisIdxLists_length hp hb]; omega) [] 0,
      axisIdxLists_getD hp hb hi, List.length_map, length_arange,
      extents_getD (by omega) (by omega)]

/-- Membership in the meshgrid region, for a nonnegative lower corner, is the
componentwise box condition `p_i ≤ j_i < b_i`. -/
theorem inRegionB_box_iff {shape : List ℕ} {p b : List ℤ} {j : List ℕ}
    (hp : p.length = shape.length) (hb : b.length = shape.length)
    (hnn : ∀ i, i < shape.length → 0 ≤ p.getD i 0) :
    (inRegionB (axisIdxLists shape p b) j = true ↔
      (j.length = shape.length ∧ ∀ i, i < shape.length →
        p.getD i 0 ≤ (j.getD i 0 : ℤ) ∧ ((j.getD i 0 : ℤ) < b.getD i 0))) := by
  unfold inRegionB
  rw [Bool.and_eq_true, decide_eq_true_iff, axisIdxLists_length hp hb,
    zip_all_getD _ [] 0, axisIdxLists_length hp hb]
  constructor
  · rintro ⟨hlen, h⟩
    refine ⟨hlen, fun i hi => ?_⟩
    have := h i hi (by omega)
    rw [axisIdxLists_getD hp hb hi, decide_eq_true_iff,
      mem_normRange (hnn i hi)] at this
    exact this
  · rintro ⟨hlen, h⟩
    refine ⟨hlen, fun i hi _ => ?_⟩
    rw [axisIdxLists_getD hp hb hi, decide_eq_true_iff,
      mem_normRange (hnn i hi)]
    exact h i hi

theorem idxBoundsOK_true {shape : List ℕ} {p b : List ℤ}
    (hp : p.length = shape.length) (hb : b.length = shape.length)
    (h : ∀ i, i < shape.length →
      -(shape.getD i 0 : ℤ) ≤ p.getD i 0 ∧ b.getD i 0 ≤ (shape.getD i 0 : ℤ)) :
    idxBoundsOK shape p b = true := by
  unfold idxBoundsOK
  rw [zip_all_getD _ 0 []]
  intro i hi₁ hi₂
  have h₁ : i < (p.zip b).length := by rw [List.length_zip]; omega
  rw [getD_map_of_lt _ h₁ (0, 0) [], getD_zip_of_lt (by omega) (by omega) 0 0]
  rw [List.all_eq_true]
  intro x hx
  rw [mem_arange] at hx
  have := h i hi₁
  unfold idxOK
  rw [decide_eq_true_iff]
  omega

theorem clipEnd_length {shape : List ℕ} {q1 : List ℤ}
    (hq : q1.length = shape.length) :
    (clipEnd shape q1).length = shape.length := by
  unfold clipEnd
  split
  · rw [List.length_map]
  · exact hq

/-- When no axis exceeds the shape the requested exclusive ends are kept. -/
theorem clipEnd_of_le {shape : List ℕ} {q1 : List ℤ}
    (hq : q1.length = shape.length)
    (h : ∀ i, i < shape.length → q1.getD i 0 ≤ (shape.getD i 0 : ℤ)) :
    clipEnd shape q1 = q1 := by
  unfold clipEnd
  rw [if_neg]
  intro hc
  rw [zip_any_getD _ 0 0] at hc
  obtain ⟨i, hi₁, hi₂, hf⟩ := hc
  rw [decide_eq_true_iff] at hf
  have := h i hi₁
  omega

/-- As soon as one axis exceeds the shape the whole bound vector becomes the
shape. -/
theorem clipEnd_of_exceeds {shape : List ℕ} {q1 : List ℤ}
    (h : ∃ i, i < shape.length ∧ i < q1.length ∧ (shape.getD i 0 : ℤ) < q1.getD i 0) :
    clipEnd shape q1 = shape.map (fun (s : ℕ) => (s : ℤ)) := by
  unfold clipEnd
  rw [if_pos]
  rw [zip_any_getD _ 0 0]
  obtain ⟨i, h₁, h₂, h₃⟩ := h
  exact ⟨i, h₁, h₂, by rw [decide_eq_true_iff]; omega⟩

/-- The clipped bound never exceeds the shape on any axis. -/
theorem clipEnd_getD_le {shape : List ℕ} {q1 : List ℤ} {i : ℕ}
    (hq : q1.length = shape.length) (hi : i < shape.length) :
    (clipEnd shape q1).getD i 0 ≤ (shape.getD i 0 : ℤ) := by
  unfold clipEnd
  split
  · rw [getD_map_of_lt _ hi 0 0]
  · rename_i hno
    by_contra hgt
    exact hno ((zip_any_getD _ 0 0 shape q1).mpr
      ⟨i, hi, by omega, by rw [decide_eq_true_iff]; omega⟩)

theorem countP_le_eq_dim {w : WorldModelND} {p q : List ℤ}
    (hp : p.length = w.dimension) (hq : q.length = w.dimension)
    (h : ∀ i, i < w.dimension → p.getD i 0 ≤ q.getD i 0) :
    ((p.zip q).countP fun ab => decide (ab.1 ≤ ab.2)) = w.dimension := by
  have hlen : (p.zip q).length = w.dimension := by
    rw [List.length_zip]; omega
  rw [← hlen, List.countP_eq_length]
  intro ab hab
  rw [List.mem_iff_getElem] at hab
  obtain ⟨i, hilt, hget⟩ := hab
  rw [List.getElem_zip] at hget
  rw [hlen] at hilt
  have := h i hilt
  rw [getD_eq_getElem (by omega) 0, getD_eq_getElem (by omega) 0] at this
  rw [← hget, decide_eq_true_iff]
  exact this

theorem map_add_one_getD {q : List ℤ} {i : ℕ} (hi : i < q.length) :
    (q.map (· + 1)).getD i 0 = q.getD i 0 + 1 :=
  getD_map_of_lt _ hi 0 0

/-! ### Successful region operations, observationally -/

/-- Behavior of `fill` under the checks it performs itself: both corners have the right
length, the ordering count passes and every meshgrid index is in bounds. -/
theorem fill_eq_ok {w : WorldModelND} {p q : List ℤ} {m : ℤ}
    (hp : p.length = w.dimension) (hq : q.length = w.dimension)
    (hcount : ((p.zip q).countP fun ab => decide (ab.1 ≤ ab.2)) = w.dimension)
    (hbok : idxBoundsOK w.grid.shape p (clipEnd w.grid.shape (q.map (· + 1))) = true) :
    w.fill p q m = .ok { w with grid := ({
      shape := w.grid.shape,
      cells := fun j =>
        if inRegionB (axisIdxLists w.grid.shape p
            (clipEnd w.grid.shape (q.map (· + 1)))) j then m
        else w.grid.cells j } : NDArray) } := by
  unfold WorldModelND.fill WorldModelND.normalizePoint WorldModelND.checkRect
  rw [if_pos hp, if_pos hq]
  show (Except.ok p >>= fun p => (Except.ok q >>= fun q => _)) = _
  rw [bind_ok_red, bind_ok_red, if_pos hcount, bind_ok_red, if_pos hbok]

theorem query_eq_ok {w : WorldModelND} {p q : List ℤ}
    (hp : p.length = w.dimension) (hq : q.length = w.dimension)
    (hcount : ((p.zip q).countP fun ab => decide (ab.1 ≤ ab.2)) = w.dimension)
    (hbok : idxBoundsOK w.grid.shape p (clipEnd w.grid.shape (q.map (· + 1))) = true) :
    w.query p q = .ok {
      shape :=
        (axisIdxLists w.grid.shape p (clipEnd w.grid.shape (q.map (· + 1)))).map
          List.length,
      cells := fun k => w.grid.cells
        (((axisIdxLists w.grid.shape p
            (clipEnd w.grid.shape (q.map (· + 1)))).zip k).map
          fun rk => rk.1.getD rk.2 0) } := by
  unfold WorldModelND.query WorldModelND.normalizePoint WorldModelND.checkRect
  rw [if_pos hp, if_pos hq]
  show (Except.ok p >>= fun p => (Except.ok q >>= fun q => _)) = _
  rw [bind_ok_red, bind_ok_red, if_pos hcount, bind_ok_red, if_pos hbok]

theorem addOff_length {p : List ℤ} {k : List ℕ} (h : k.length = p.length) :
    (addOff p k).length = p.length := by
  unfold addOff
  rw [List.length_map, List.length_zip]
  omega

theorem addOff_getD {p : List ℤ} {k : List ℕ} {i : ℕ}
    (hp : i < p.length) (hk : i < k.length) :
    (addOff p k).getD i 0 = (p.getD i 0 + (k.getD i 0 : ℤ)).toNat := by
  have h₁ : i < (p.zip k).length := by rw [List.length_zip]; omega
  unfold addOff
  rw [getD_map_of_lt _ h₁ (0, 0) 0, getD_zip_of_lt hp hk 0 0]

theorem normPt_length {shape : List ℕ} {p : List ℤ} (h : p.length = shape.length) :
    (normPt shape p).length = shape.length := by
  unfold normPt
  rw [List.length_map, List.length_zip]
  omega

theorem normPt_getD {shape : List ℕ} {p : List ℤ} {i : ℕ}
    (hs : i < shape.length) (hp : i < p.length) :
    (normPt shape p).getD i 0 = normIdx (shape.getD i 0) (p.getD i 0) := by
  have h₁ : i < (shape.zip p).length := by rw [List.length_zip]; omega
  unfold normPt
  rw [getD_map_of_lt _ h₁ (0, 0) 0, getD_zip_of_lt hs hp 0 0]

/-- The source cell addressed by offset `k` of a `query` block: component `i`
is `p_i + k_i`. -/
theorem meshIdx_getD_eq_addOff {shape : List ℕ} {p b : List ℤ} {k : List ℕ}
    (hp : p.length = shape.length) (hb : b.length = shape.length)
    (hk : k.length = shape.length)
    (hnn : ∀ i, i < shape.length → 0 ≤ p.getD i 0)
    (hlt : ∀ i, i < shape.length → (k.getD i 0 : ℤ) < b.getD i 0 - p.getD i 0) :
    ((axisIdxLists shape p b).zip k).map (fun rk => rk.1.getD rk.2 0) =
      addOff p k := by
  have hal : (axisIdxLists shape p b).length = shape.length :=
    axisIdxLists_length hp hb
  apply list_ext_getD 0
  · rw [List.length_map, List.length_zip, hal, addOff_length (by omega)]
    omega
  · intro i hi
    rw [List.length_map, List.length_zip, hal] at hi
    have hiz : i < ((axisIdxLists shape p b).zip k).length := by
      rw [List.length_zip, hal]; omega
    rw [getD_map_of_lt _ hiz ([], 0) 0,
      getD_zip_of_lt (by omega) (by omega) [] 0,
      axisIdxLists_getD hp hb (by omega),
      addOff_getD (by omega) (by omega)]
    have hklt : k.getD i 0 < ((b.getD i 0) - (p.getD i 0)).toNat := by
      have := hlt i (by omega)
      omega
    rw [getD_map_of_lt _ (by rw [length_arange]; omega) 0 0,
      arange_getD hklt]
    unfold normIdx
    rw [if_neg (by have := hnn i (by omega); omega)]

/-- C8: for every shape vector `S`: if every extent is positive,
`construct(S)` (= `WorldModelND.init S none`, `world.py` lines 27-48)
succeeds, the resulting grid's shape equals `S`, the world is well-formed and
every cell is AIR; if some extent is `≤ 0`, construction fails with the
invalid-shape error (the `ValueError` of `__init__`) and no grid is
produced. -/
theorem construct_spec (shape : List ℤ) :
    ((∀ s ∈ shape, 0 < s) →
      ∃ w, WorldModelND.init shape none = .ok w ∧
        w.grid.shape.map (fun (s : ℕ) => (s : ℤ)) = shape ∧
        w.wf ∧
        (∀ j, w.grid.cells j = Material.AIR)) ∧
    ((∃ s ∈ shape, s ≤ 0) →
      WorldModelND.init shape none = .error .invalidShape) := by
  constructor
  · intro hpos
    have hno : shape.any (fun s => decide (s ≤ 0)) = false := by
      rw [Bool.eq_false_iff]
      intro hc
      rw [List.any_eq_true] at hc
      obtain ⟨s, hs, hle⟩ := hc
      rw [decide_eq_true_iff] at hle
      exact absurd (hpos s hs) (by omega)
    refine ⟨_, by rw [WorldModelND.init, hno]; rfl, ?_, ?_, fun j => rfl⟩
    · rw [List.map_map]
      conv_rhs => rw [← List.map_id shape]
      apply List.map_congr_left
      intro s hs
      have := hpos s hs
      simp only [Function.comp_apply, id_eq]
      omega
    · refine ⟨by rw [List.length_map], ?_, ?_⟩
      · rw [List.map_map]
        apply List.map_congr_left
        intro s hs
        have := hpos s hs
        simp only [Function.comp_apply]
        omega
      · intro s hs
        rw [List.mem_map] at hs
        obtain ⟨x, hx, rfl⟩ := hs
        have := hpos x hx
        omega
  · intro hneg
    rw [WorldModelND.init, if_pos]
    rw [List.any_eq_true]
    obtain ⟨s, hs, hle⟩ := hneg
    exact ⟨s, hs, by rw [decide_eq_true_iff]; omega⟩

/-- Witness for C8 at the concrete shapes `[2, 3]` (valid) and `[0, 3]`
(invalid extent). -/
theorem construct_spec_witness :
    (∃ w, WorldModelND.init [2, 3] none = .ok w ∧
        w.grid.shape.map (fun (s : ℕ) => (s : ℤ)) = [2, 3] ∧
        w.wf ∧
        (∀ j, w.grid.cells j = Material.AIR)) ∧
    WorldModelND.init [0, 3] none = .error .invalidShape :=
  ⟨(construct_spec [2, 3]).1 (by decide),
   (construct_spec [0, 3]).2 ⟨0, by decide, by decide⟩⟩

/-- C9: persistence round-trip.  `save` writes exactly the dense grid
(`np.save(handle, self._grid)`) and `load` rebuilds the world from it via
`cls(grid.shape, grid)`, so for every well-formed world
`load (save w) = ok w` — the same shape, dimension and cell-for-cell
content. -/
theorem load_save_roundtrip (w : WorldModelND) (hw : w.wf) :
    WorldModelND.load (WorldModelND.save w) = .ok w := by
  obtain ⟨hdim, hgm, hpos⟩ := hw
  have hno : (w.grid.shape.map fun (s : ℕ) => (s : ℤ)).any
      (fun s => decide (s ≤ 0)) = false := by
    rw [Bool.eq_false_iff]
    intro hc
    rw [List.any_eq_true] at hc
    obtain ⟨s, hs, hle⟩ := hc
    rw [List.mem_map] at hs
    obtain ⟨x, hx, rfl⟩ := hs
    rw [decide_eq_true_iff] at hle
    exact absurd (hpos x hx) (by omega)
  unfold WorldModelND.load WorldModelND.save WorldModelND.init
  rw [hno]
  cases w with
  | mk gm dim grid =>
    simp only [Bool.false_eq_true, if_false, Except.ok.injEq]
    simp only at hdim hgm hpos
    congr 1
    · rw [hgm, List.map_map]
      apply List.map_congr_left
      intro s hs
      simp only [Function.comp_apply]
    · rw [List.length_map, hdim]

/-- Witness for C9 on a concrete well-formed 2×2 world holding one WALL. -/
theorem load_save_roundtrip_witness :
    WorldModelND.load (WorldModelND.save
      { grid_max := [1, 1], dimension := 2,
        grid := { shape := [2, 2],
                  cells := fun j => if j = [0, 1] then Material.WALL
                                    else Material.AIR } }) =
    .ok { grid_max := [1, 1], dimension := 2,
          grid := { shape := [2, 2],
                    cells := fun j => if j = [0, 1] then Material.WALL
                                      else Material.AIR } } :=
  load_save_roundtrip _ (by decide)

theorem countP_ne_dim {w : WorldModelND} {p q : List ℤ}
    (hp : p.length = w.dimension) (hq : q.length = w.dimension)
    (hvi : ∃ i, i < w.dimension ∧ q.getD i 0 < p.getD i 0) :
    ((p.zip q).countP fun ab => decide (ab.1 ≤ ab.2)) ≠ w.dimension := by
  obtain ⟨i, hi, hlt⟩ := hvi
  intro hc
  have hlen : (p.zip q).length = w.dimension := by
    rw [List.length_zip]; omega
  rw [← hlen, List.countP_eq_length] at hc
  have hil : i < (p.zip q).length := by omega
  have := hc ((p.zip q)[i]) (List.getElem_mem hil)
  rw [List.getElem_zip, decide_eq_true_iff] at this
  rw [getD_eq_getElem (by omega) 0, getD_eq_getElem (by omega) 0] at hlt
  omega

/-- C7: every region operation (`fill`, `point`, `query`, `replace`) fails
with the dimension-mismatch error (the assert in `_normalize_point_input`)
when a corner has the wrong number of coordinates, and with the
invalid-region error (the assert in `_check_rect_ordering`) when the lower
corner exceeds the upper corner on some axis.  Both checks run before the
grid is touched: in the model an erroring operation returns no new world at
all, mirroring that the Python code raises before its single numpy write, so
the caller's grid is exactly what it was before the call. -/
theorem region_op_precondition_errors (w : WorldModelND) (p q : List ℤ)
    (m : ℤ) (block : NDArray) :
    ((p.length ≠ w.dimension ∨ q.length ≠ w.dimension) →
      (w.fill p q m = .error .dimensionMismatch ∧
       w.query p q = .error .dimensionMismatch ∧
       w.replace p q block = .error .dimensionMismatch)) ∧
    (p.length ≠ w.dimension → w.point p m = .error .dimensionMismatch) ∧
    (p.length = w.dimension → q.length = w.dimension →
      (∃ i, i < w.dimension ∧ q.getD i 0 < p.getD i 0) →
      (w.fill p q m = .error .invalidRegion ∧
       w.query p q = .error .invalidRegion ∧
       w.replace p q block = .error .invalidRegion)) := by
  refine ⟨?_, ?_, ?_⟩
  · intro hbad
    by_cases hp : p.length = w.dimension
    · have hq : q.length ≠ w.dimension := by tauto
      refine ⟨?_, ?_, ?_⟩ <;>
        · first
          | unfold WorldModelND.fill WorldModelND.normalizePoint
          | unfold WorldModelND.query WorldModelND.normalizePoint
          | unfold WorldModelND.replace WorldModelND.normalizePoint
          rw [if_pos hp, if_neg hq]
          show (Except.ok p >>= fun p => (Except.error PyErr.dimensionMismatch >>= _)) = _
          rw [bind_ok_red, bind_error_red]
    · refine ⟨?_, ?_, ?_⟩ <;>
        · first
          | unfold WorldModelND.fill WorldModelND.normalizePoint
          | unfold WorldModelND.query WorldModelND.normalizePoint
          | unfold WorldModelND.replace WorldModelND.normalizePoint
          rw [if_neg hp]
          show (Except.error PyErr.dimensionMismatch >>= _) = _
          rw [bind_error_red]
  · intro hp
    unfold WorldModelND.point WorldModelND.fill WorldModelND.normalizePoint
    rw [if_neg hp]
    show (Except.error PyErr.dimensionMismatch >>= _) = _
    rw [bind_error_red]
  · intro hp hq hvi
    have hcne := countP_ne_dim hp hq hvi
    refine ⟨?_, ?_, ?_⟩ <;>
      · first
        | unfold WorldModelND.fill WorldModelND.normalizePoint WorldModelND.checkRect
        | unfold WorldModelND.query WorldModelND.normalizePoint WorldModelND.checkRect
        | unfold WorldModelND.replace WorldModelND.normalizePoint WorldModelND.checkRect
        rw [if_pos hp, if_pos hq]
        show (Except.ok p >>= fun p => (Except.ok q >>= fun q => _)) = _
        rw [bind_ok_red, bind_ok_red, if_neg hcne, bind_error_red]

/-- Witness for C7 on a concrete 3×3 world: a 1-component corner triggers the
dimension-mismatch error in all four operations, and a lower corner exceeding
the upper corner triggers the invalid-region error. -/
theorem region_op_precondition_errors_witness :
    (({ grid_max := [2, 2], dimension := 2,
        grid := { shape := [3, 3], cells := fun _ => Material.AIR } } :
          WorldModelND).fill [0] [0, 1] Material.WALL
        = .error .dimensionMismatch ∧
     ({ grid_max := [2, 2], dimension := 2,
        grid := { shape := [3, 3], cells := fun _ => Material.AIR } } :
          WorldModelND).query [0] [0, 1] = .error .dimensionMismatch ∧
     ({ grid_max := [2, 2], dimension := 2,
        grid := { shape := [3, 3], cells := fun _ => Material.AIR } } :
          WorldModelND).replace [0] [0, 1]
          { shape := [1], cells := fun _ => 0 } = .error .dimensionMismatch) ∧
    ({ grid_max := [2, 2], dimension := 2,
       grid := { shape := [3, 3], cells := fun _ => Material.AIR } } :
         WorldModelND).point [0] Material.WALL = .error .dimensionMismatch ∧
    (({ grid_max := [2, 2], dimension := 2,
        grid := { shape := [3, 3], cells := fun _ => Material.AIR } } :
          WorldModelND).fill [1, 1] [0, 1] Material.WALL
        = .error .invalidRegion ∧
     ({ grid_max := [2, 2], dimension := 2,
        grid := { shape := [3, 3], cells := fun _ => Material.AIR } } :
          WorldModelND).query [1, 1] [0, 1] = .error .invalidRegion ∧
     ({ grid_max := [2, 2], dimension := 2,
        grid := { shape := [3, 3], cells := fun _ => Material.AIR } } :
          WorldModelND).replace [1, 1] [0, 1]
          { shape := [1], cells := fun _ => 0 } = .error .invalidRegion) :=
  ⟨(region_op_precondition_errors _ [0] [0, 1] Material.WALL
      { shape := [1], cells := fun _ => 0 }).1 (by decide),
   (region_op_precondition_errors _ [0] [0, 1] Material.WALL
      { shape := [1], cells := fun _ => 0 }).2.1 (by decide),
   (region_op_precondition_errors _ [1, 1] [0, 1] Material.WALL
      { shape := [1], cells := fun _ => 0 }).2.2 (by decide) (by decide)
      ⟨0, by decide, by decide⟩⟩

theorem arange_singleton (a : ℤ) : arange a (a + 1) = [a] := by
  unfold arange
  have h1 : (a + 1 - a).toNat = 1 := by omega
  rw [h1, List.range_succ, List.range_zero, List.nil_append,
    List.map_cons, List.map_nil]
  norm_num

/-- A single-point region (`fill p p`) addresses exactly the resolved point
`normPt shape p`. -/
theorem inRegionB_point_iff {shape : List ℕ} {p : List ℤ} {j : List ℕ}
    (hp : p.length = shape.length) :
    (inRegionB (axisIdxLists shape p (p.map (· + 1))) j = true ↔
      j = normPt shape p) := by
  have hb : (p.map (· + 1)).length = shape.length := by
    rw [List.length_map]; omega
  unfold inRegionB
  rw [Bool.and_eq_true, decide_eq_true_iff, axisIdxLists_length hp hb,
    zip_all_getD _ [] 0, axisIdxLists_length hp hb]
  constructor
  · rintro ⟨hlen, h⟩
    apply list_ext_getD 0 (by rw [hlen, normPt_length hp])
    intro i hi
    rw [hlen] at hi
    have hmem := h i hi (by omega)
    rw [axisIdxLists_getD hp hb hi, map_add_one_getD (by omega),
      arange_singleton, List.map_cons, List.map_nil, decide_eq_true_iff,
      List.mem_singleton] at hmem
    rw [normPt_getD hi (by omega)]
    exact hmem
  · rintro rfl
    refine ⟨normPt_length hp, fun i hi _ => ?_⟩
    rw [axisIdxLists_getD hp hb hi, map_add_one_getD (by omega),
      arange_singleton, List.map_cons, List.map_nil, decide_eq_true_iff,
      List.mem_singleton, normPt_getD hi (by omega)]

/-- C10: a point whose coordinates lie in `[-s_i, s_i)` — in particular one
with small *negative* coordinates — is silently accepted by
`point(p, m)` = `fill(p, p, m)` rather than rejected: numpy wraparound makes
it write exactly the cell whose `i`-th index is `s_i + p_i` for negative
`p_i` (and `p_i` otherwise), leaving every other cell unchanged. -/
theorem point_wraparound (w : WorldModelND) (p : List ℤ) (m : ℤ)
    (hw : w.wf) (hlen : p.length = w.dimension)
    (hrange : ∀ i, i < w.dimension →
      -(w.grid.shape.getD i 0 : ℤ) ≤ p.getD i 0 ∧
        p.getD i 0 < (w.grid.shape.getD i 0 : ℤ)) :
    ∃ w', w.point p m = .ok w' ∧
      w'.grid.shape = w.grid.shape ∧
      w'.grid.cells (normPt w.grid.shape p) = m ∧
      (∀ j, j ≠ normPt w.grid.shape p → w'.grid.cells j = w.grid.cells j) := by
  obtain ⟨hdim, hgm, hpos⟩ := hw
  have hps : p.length = w.grid.shape.length := by omega
  have hb : (p.map (· + 1)).length = w.grid.shape.length := by
    rw [List.length_map]; omega
  have hclip : clipEnd w.grid.shape (p.map (· + 1)) = p.map (· + 1) := by
    apply clipEnd_of_le hb
    intro i hi
    rw [map_add_one_getD (by omega)]
    have := hrange i (by omega)
    omega
  have hcount : ((p.zip p).countP fun ab => decide (ab.1 ≤ ab.2)) = w.dimension :=
    countP_le_eq_dim hlen hlen (fun i _ => le_refl _)
  have hbok : idxBoundsOK w.grid.shape p
      (clipEnd w.grid.shape (p.map (· + 1))) = true := by
    rw [hclip]
    apply idxBoundsOK_true hps hb
    intro i hi
    rw [map_add_one_getD (by omega)]
    have := hrange i (by omega)
    omega
  have hfill := fill_eq_ok (m := m) hlen hlen hcount hbok
  rw [hclip] at hfill
  refine ⟨_, hfill, rfl, ?_, ?_⟩
  · show (if inRegionB (axisIdxLists w.grid.shape p (p.map (· + 1)))
        (normPt w.grid.shape p) then m else _) = m
    rw [if_pos ((inRegionB_point_iff hps).mpr rfl)]
  · intro j hj
    show (if inRegionB (axisIdxLists w.grid.shape p (p.map (· + 1))) j
        then m else w.grid.cells j) = w.grid.cells j
    rw [if_neg]
    intro hc
    exact hj ((inRegionB_point_iff hps).mp hc)

/-- Witness for C10: on a 1-dimensional world of extent 4, `point [-1] WALL`
succeeds and writes cell `[3] = 4 + (-1)`, leaving cell `[0]` unchanged. -/
theorem point_wraparound_witness :
    ∃ w', ({ grid_max := [3], dimension := 1,
             grid := { shape := [4], cells := fun _ => Material.AIR } } :
               WorldModelND).point [-1] Material.WALL = .ok w' ∧
      w'.grid.shape = [4] ∧
      w'.grid.cells (normPt [4] [-1]) = Material.WALL ∧
      (∀ j, j ≠ normPt [4] [-1] → w'.grid.cells j = Material.AIR) := by
  have h := point_wraparound
    { grid_max := [3], dimension := 1,
      grid := { shape := [4], cells := fun _ => Material.AIR } }
    [-1] Material.WALL (by decide) (by decide)
    (by decide)
  exact h


/-- C5: for a region `[p, q]` entirely inside bounds with `p ≤ q`
componentwise, `fill p q WALL` succeeds; `query p q` on the result is a block
of extents `q_i + 1 - p_i` all of whose cells are WALL; and every cell of
`all()` outside the closed region keeps the value it had before the fill. -/
theorem fill_query_frame (w : WorldModelND) (p q : List ℤ)
    (hw : w.wf) (hp : p.length = w.dimension) (hq : q.length = w.dimension)
    (hin : ∀ i, i < w.dimension → 0 ≤ p.getD i 0 ∧ p.getD i 0 ≤ q.getD i 0 ∧
      q.getD i 0 < (w.grid.shape.getD i 0 : ℤ)) :
    ∃ w', w.fill p q Material.WALL = .ok w' ∧
      (∃ arr, w'.query p q = .ok arr ∧
        arr.shape = extents p (q.map (· + 1)) ∧
        (∀ k, k.length = w.dimension →
          (∀ i, i < w.dimension → (k.getD i 0 : ℤ) < q.getD i 0 + 1 - p.getD i 0) →
          arr.cells k = Material.WALL)) ∧
      (∀ j, j.length = w.dimension →
        (∃ i, i < w.dimension ∧
          ((j.getD i 0 : ℤ) < p.getD i 0 ∨ q.getD i 0 < (j.getD i 0 : ℤ))) →
        w'.all.cells j = w.all.cells j) := by
  obtain ⟨hdim, hgm, hpos⟩ := hw
  have hps : p.length = w.grid.shape.length := by omega
  have hqs : q.length = w.grid.shape.length := by omega
  have hb1 : (q.map (· + 1)).length = w.grid.shape.length := by
    rw [List.length_map]; omega
  have hclip : clipEnd w.grid.shape (q.map (· + 1)) = q.map (· + 1) := by
    apply clipEnd_of_le hb1
    intro i hi
    rw [map_add_one_getD (by omega)]
    have := hin i (by omega)
    omega
  have hcount : ((p.zip q).countP fun ab => decide (ab.1 ≤ ab.2)) = w.dimension :=
    countP_le_eq_dim hp hq (fun i hi => (hin i hi).2.1)
  have hbok : idxBoundsOK w.grid.shape p
      (clipEnd w.grid.shape (q.map (· + 1))) = true := by
    rw [hclip]
    apply idxBoundsOK_true hps hb1
    intro i hi
    rw [map_add_one_getD (by omega)]
    have := hin i (by omega)
    omega
  have hfill := fill_eq_ok (m := Material.WALL) hp hq hcount hbok
  refine ⟨_, hfill, ⟨_, query_eq_ok hp hq hcount hbok, ?_, ?_⟩, ?_⟩
  · rw [hclip, axisIdxLists_map_length hps hb1]
  · intro k hk hklt
    have hkltb : ∀ i, i < w.grid.shape.length →
        (k.getD i 0 : ℤ) < (q.map (· + 1)).getD i 0 - p.getD i 0 := by
      intro i hi
      rw [map_add_one_getD (by omega)]
      have := hklt i (by omega)
      omega
    have hmesh := meshIdx_getD_eq_addOff hps hb1 (by omega)
      (fun i hi => (hin i (by omega)).1) hkltb
    have hbox : inRegionB (axisIdxLists w.grid.shape p (q.map (· + 1)))
        (addOff p k) = true := by
      rw [inRegionB_box_iff hps hb1 (fun i hi => (hin i (by omega)).1)]
      refine ⟨by rw [addOff_length (by omega)]; omega, fun i hi => ?_⟩
      rw [addOff_getD (by omega) (by omega), map_add_one_getD (by omega)]
      have h1 := hin i (by omega)
      have h2 := hklt i (by omega)
      omega
    show (if inRegionB (axisIdxLists w.grid.shape p
          (clipEnd w.grid.shape (q.map (· + 1))))
        (((axisIdxLists w.grid.shape p
            (clipEnd w.grid.shape (q.map (· + 1)))).zip k).map
          fun rk => rk.1.getD rk.2 0) then Material.WALL
      else w.grid.cells
        (((axisIdxLists w.grid.shape p
            (clipEnd w.grid.shape (q.map (· + 1)))).zip k).map
          fun rk => rk.1.getD rk.2 0)) = Material.WALL
    rw [hclip, hmesh, if_pos hbox]
  · intro j hj hout
    show (if inRegionB (axisIdxLists w.grid.shape p
        (clipEnd w.grid.shape (q.map (· + 1)))) j then Material.WALL
      else w.grid.cells j) = w.grid.cells j
    rw [hclip, if_neg]
    intro hc
    rw [inRegionB_box_iff hps hb1 (fun i hi => (hin i (by omega)).1)] at hc
    obtain ⟨i, hi, hviol⟩ := hout
    have := hc.2 i (by omega)
    rw [map_add_one_getD (by omega)] at this
    omega

/-- Witness for C5 on a 3×3 all-AIR world with region `(0,1)-(1,2)`. -/
theorem fill_query_frame_witness :
    ∃ w', ({ grid_max := [2, 2], dimension := 2,
             grid := { shape := [3, 3], cells := fun _ => Material.AIR } } :
               WorldModelND).fill [0, 1] [1, 2] Material.WALL = .ok w' ∧
      (∃ arr, w'.query [0, 1] [1, 2] = .ok arr ∧
        arr.shape = extents [0, 1] ([1, 2].map (· + 1)) ∧
        (∀ k, k.length = 2 →
          (∀ i, i < 2 → (k.getD i 0 : ℤ) <
            [(1 : ℤ), 2].getD i 0 + 1 - [(0 : ℤ), 1].getD i 0) →
          arr.cells k = Material.WALL)) ∧
      (∀ j, j.length = 2 →
        (∃ i, i < 2 ∧
          ((j.getD i 0 : ℤ) < [(0 : ℤ), 1].getD i 0 ∨
            [(1 : ℤ), 2].getD i 0 < (j.getD i 0 : ℤ))) →
        w'.all.cells j =
          ({ grid_max := [2, 2], dimension := 2,
             grid := { shape := [3, 3], cells := fun _ => Material.AIR } } :
               WorldModelND).all.cells j) :=
  fill_query_frame
    { grid_max := [2, 2], dimension := 2,
      grid := { shape := [3, 3], cells := fun _ => Material.AIR } }
    [0, 1] [1, 2] (by decide) (by decide) (by decide) (by decide)

theorem shape_cast_getD {shape : List ℕ} {i : ℕ} (hi : i < shape.length) :
    (shape.map fun (s : ℕ) => (s : ℤ)).getD i 0 = (shape.getD i 0 : ℤ) :=
  getD_map_of_lt _ hi 0 0

/-- C1 (amended): the clipping of the exclusive end `q+1` is *wholesale*, not
per-axis.  If `q+1` is within the shape on every axis, the requested bounds
are kept: `fill` touches exactly the closed box `[p, q]` and `query` returns a
block of extents `q+1-p`.  But as soon as `q+1` exceeds the shape on *some*
axis, the entire bound vector is replaced by the shape: `fill` then writes
every in-bounds cell with all coordinates `≥ p` — including cells beyond the
requested `q` on axes where `q+1` was within the shape — and `query` returns a
block of extents `shape - p`. -/
theorem clip_wholesale (w : WorldModelND) (p q : List ℤ) (m : ℤ)
    (hw : w.wf) (hp : p.length = w.dimension) (hq : q.length = w.dimension)
    (hord : ∀ i, i < w.dimension → 0 ≤ p.getD i 0 ∧ p.getD i 0 ≤ q.getD i 0) :
    ((∀ i, i < w.dimension → q.getD i 0 + 1 ≤ (w.grid.shape.getD i 0 : ℤ)) →
      ∃ w', w.fill p q m = .ok w' ∧
        (∃ arr, w.query p q = .ok arr ∧
          arr.shape = extents p (q.map (· + 1))) ∧
        (∀ j, j.length = w.dimension →
          ((∀ i, i < w.dimension → p.getD i 0 ≤ (j.getD i 0 : ℤ) ∧
            (j.getD i 0 : ℤ) ≤ q.getD i 0) → w'.grid.cells j = m) ∧
          ((∃ i, i < w.dimension ∧ ((j.getD i 0 : ℤ) < p.getD i 0 ∨
            q.getD i 0 < (j.getD i 0 : ℤ))) →
            w'.grid.cells j = w.grid.cells j))) ∧
    ((∃ i, i < w.dimension ∧ (w.grid.shape.getD i 0 : ℤ) < q.getD i 0 + 1) →
      ∃ w', w.fill p q m = .ok w' ∧
        (∃ arr, w.query p q = .ok arr ∧
          arr.shape = extents p (w.grid.shape.map fun (s : ℕ) => (s : ℤ))) ∧
        (∀ j, j.length = w.dimension →
          (∀ i, i < w.dimension → j.getD i 0 < w.grid.shape.getD i 0) →
          ((∀ i, i < w.dimension → p.getD i 0 ≤ (j.getD i 0 : ℤ)) →
            w'.grid.cells j = m) ∧
          ((∃ i, i < w.dimension ∧ (j.getD i 0 : ℤ) < p.getD i 0) →
            w'.grid.cells j = w.grid.cells j))) := by
  obtain ⟨hdim, hgm, hpos⟩ := hw
  have hps : p.length = w.grid.shape.length := by omega
  have hb1 : (q.map (· + 1)).length = w.grid.shape.length := by
    rw [List.length_map]; omega
  have hcount : ((p.zip q).countP fun ab => decide (ab.1 ≤ ab.2)) = w.dimension :=
    countP_le_eq_dim hp hq (fun i hi => (hord i hi).2)
  constructor
  · -- every axis within bounds: the requested ends are kept
    intro hle
    have hclip : clipEnd w.grid.shape (q.map (· + 1)) = q.map (· + 1) := by
      apply clipEnd_of_le hb1
      intro i hi
      rw [map_add_one_getD (by omega)]
      exact hle i (by omega)
    have hbok : idxBoundsOK w.grid.shape p
        (clipEnd w.grid.shape (q.map (· + 1))) = true := by
      rw [hclip]
      apply idxBoundsOK_true hps hb1
      intro i hi
      rw [map_add_one_getD (by omega)]
      have := hord i (by omega)
      have := hle i (by omega)
      omega
    refine ⟨_, fill_eq_ok hp hq hcount hbok,
      ⟨_, query_eq_ok hp hq hcount hbok, ?_⟩, ?_⟩
    · rw [hclip, axisIdxLists_map_length hps hb1]
    · intro j hj
      constructor
      · intro hbox
        show (if inRegionB (axisIdxLists w.grid.shape p
            (clipEnd w.grid.shape (q.map (· + 1)))) j then m
          else w.grid.cells j) = m
        rw [hclip, if_pos]
        rw [inRegionB_box_iff hps hb1 (fun i hi => (hord i (by omega)).1)]
        refine ⟨by omega, fun i hi => ?_⟩
        rw [map_add_one_getD (by omega)]
        have := hbox i (by omega)
        omega
      · intro hout
        show (if inRegionB (axisIdxLists w.grid.shape p
            (clipEnd w.grid.shape (q.map (· + 1)))) j then m
          else w.grid.cells j) = w.grid.cells j
        rw [hclip, if_neg]
        intro hc
        rw [inRegionB_box_iff hps hb1 (fun i hi => (hord i (by omega)).1)] at hc
        obtain ⟨i, hi, hviol⟩ := hout
        have := hc.2 i (by omega)
        rw [map_add_one_getD (by omega)] at this
        omega
  · -- some axis exceeds: the whole bound vector becomes the shape
    intro hex
    have hclip : clipEnd w.grid.shape (q.map (· + 1)) =
        w.grid.shape.map (fun (s : ℕ) => (s : ℤ)) := by
      apply clipEnd_of_exceeds
      obtain ⟨i, hi, hgt⟩ := hex
      refine ⟨i, by omega, by rw [List.length_map]; omega, ?_⟩
      rw [map_add_one_getD (by omega)]
      omega
    have hbs : (w.grid.shape.map fun (s : ℕ) => (s : ℤ)).length =
        w.grid.shape.length := by
      rw [List.length_map]
    have hbok : idxBoundsOK w.grid.shape p
        (clipEnd w.grid.shape (q.map (· + 1))) = true := by
      rw [hclip]
      apply idxBoundsOK_true hps hbs
      intro i hi
      rw [shape_cast_getD (by omega)]
      have := hord i (by omega)
      omega
    refine ⟨_, fill_eq_ok hp hq hcount hbok,
      ⟨_, query_eq_ok hp hq hcount hbok, ?_⟩, ?_⟩
    · rw [hclip, axisIdxLists_map_length hps hbs]
    · intro j hj hjvalid
      constructor
      · intro hbox
        show (if inRegionB (axisIdxLists w.grid.shape p
            (clipEnd w.grid.shape (q.map (· + 1)))) j then m
          else w.grid.cells j) = m
        rw [hclip, if_pos]
        rw [inRegionB_box_iff hps hbs (fun i hi => (hord i (by omega)).1)]
        refine ⟨by omega, fun i hi => ?_⟩
        rw [shape_cast_getD (by omega)]
        have := hbox i (by omega)
        have := hjvalid i (by omega)
        omega
      · intro hout
        show (if inRegionB (axisIdxLists w.grid.shape p
            (clipEnd w.grid.shape (q.map (· + 1)))) j then m
          else w.grid.cells j) = w.grid.cells j
        rw [hclip, if_neg]
        intro hc
        rw [inRegionB_box_iff hps hbs (fun i hi => (hord i (by omega)).1)] at hc
        obtain ⟨i, hi, hviol⟩ := hout
        have := hc.2 i (by omega)
        omega

/-- Witness for C1 (amended) on a 3×3 world, with the in-bounds region
`(0,0)-(1,1)` for the first part and the overflowing region `(0,0)-(0,5)` for
the second. -/
theorem clip_wholesale_witness :
    (∃ w', ({ grid_max := [2, 2], dimension := 2,
              grid := { shape := [3, 3], cells := fun _ => Material.AIR } } :
                WorldModelND).fill [0, 0] [1, 1] Material.WALL = .ok w' ∧
      (∃ arr, ({ grid_max := [2, 2], dimension := 2,
                 grid := { shape := [3, 3], cells := fun _ => Material.AIR } } :
                   WorldModelND).query [0, 0] [1, 1] = .ok arr ∧
        arr.shape = extents [0, 0] ([1, 1].map (· + 1))) ∧
      (∀ j, j.length = 2 →
        ((∀ i, i < 2 → [(0 : ℤ), 0].getD i 0 ≤ (j.getD i 0 : ℤ) ∧
          (j.getD i 0 : ℤ) ≤ [(1 : ℤ), 1].getD i 0) →
            w'.grid.cells j = Material.WALL) ∧
        ((∃ i, i < 2 ∧ ((j.getD i 0 : ℤ) < [(0 : ℤ), 0].getD i 0 ∨
          [(1 : ℤ), 1].getD i 0 < (j.getD i 0 : ℤ))) →
            w'.grid.cells j = Material.AIR))) ∧
    (∃ w', ({ grid_max := [2, 2], dimension := 2,
              grid := { shape := [3, 3], cells := fun _ => Material.AIR } } :
                WorldModelND).fill [0, 0] [0, 5] Material.WALL = .ok w' ∧
      (∃ arr, ({ grid_max := [2, 2], dimension := 2,
                 grid := { shape := [3, 3], cells := fun _ => Material.AIR } } :
                   WorldModelND).query [0, 0] [0, 5] = .ok arr ∧
        arr.shape = extents [0, 0] ([3, 3].map fun (s : ℕ) => (s : ℤ))) ∧
      (∀ j, j.length = 2 → (∀ i, i < 2 → j.getD i 0 < [3, 3].getD i 0) →
        ((∀ i, i < 2 → [(0 : ℤ), 0].getD i 0 ≤ (j.getD i 0 : ℤ)) →
          w'.grid.cells j = Material.WALL) ∧
        ((∃ i, i < 2 ∧ (j.getD i 0 : ℤ) < [(0 : ℤ), 0].getD i 0) →
          w'.grid.cells j = Material.AIR))) :=
  ⟨(clip_wholesale
      { grid_max := [2, 2], dimension := 2,
        grid := { shape := [3, 3], cells := fun _ => Material.AIR } }
      [0, 0] [1, 1] Material.WALL (by decide) (by decide) (by decide)
      (by decide)).1 (by decide),
   (clip_wholesale
      { grid_max := [2, 2], dimension := 2,
        grid := { shape := [3, 3], cells := fun _ => Material.AIR } }
      [0, 0] [0, 5] Material.WALL (by decide) (by decide) (by decide)
      (by decide)).2 ⟨1, by decide, by decide⟩⟩

/-- Counterexample to C1 as stated: on a 3×3 all-AIR grid,
`fill (0,0) (0,5) WALL` has `q+1 = (1,6)`: axis 0 is within the shape, so
per-axis clipping would keep its bound 1 and leave cell `(2,0)` untouched.
The code instead overwrites `(2,0)` with WALL, and `query (0,0) (0,5)`
returns a 3×3 block instead of a 1×3 one. -/
theorem clip_wholesale_cex :
    (({ grid_max := [2, 2], dimension := 2,
        grid := { shape := [3, 3], cells := fun _ => Material.AIR } } :
          WorldModelND).fill [0, 0] [0, 5] Material.WALL).map
        (fun w' => w'.grid.cells [2, 0]) = .ok Material.WALL ∧
    (({ grid_max := [2, 2], dimension := 2,
        grid := { shape := [3, 3], cells := fun _ => Material.AIR } } :
          WorldModelND).query [0, 0] [0, 5]).map NDArray.shape = .ok [3, 3] ∧
    ({ grid_max := [2, 2], dimension := 2,
       grid := { shape := [3, 3], cells := fun _ => Material.AIR } } :
         WorldModelND).grid.cells [2, 0] = Material.AIR :=
  ⟨rfl, rfl, rfl⟩

/-- C2 (the code at the claim's input): `WorldManager.resize` compares the
requested shape against `size = world.gmax = shape - 1`, so for a manager
owning a 2×2 grid, `size` is `[1, 1]` and `resize [2, 2]` — the *same shape*
as the current grid — takes the "changed" branch: it builds a fresh world,
copies the content over and returns `true` ("a replacement occurred"),
contradicting both the claim and the method's own docstring ("If the size
changes return True"). -/
theorem resize_same_shape_replaces :
    (WorldManager.resize
        { world := { grid_max := [1, 1], dimension := 2,
                     grid := { shape := [2, 2], cells := fun _ => Material.AIR } },
          current_material := Material.AIR } [2, 2]).map Prod.snd = .ok true ∧
    WorldManager.size
        { world := { grid_max := [1, 1], dimension := 2,
                     grid := { shape := [2, 2], cells := fun _ => Material.AIR } },
          current_material := Material.AIR } = [1, 1] :=
  ⟨rfl, rfl⟩

/-- C3 (the code at the claim's inputs): starting from a 10×10 grid with a
WALL region at `(2,2)-(4,4)`, growing to 20×20 does work as the claim says —
the WALL block stays at the same coordinates and all new cells are AIR.  But
*shrinking* to 3×3 raises the index error instead of completing:
`min_shape = min(gmax, new_shape) = (3,3)` mixes the inclusive maximum with a
shape, `query((0,0),(3,3))` returns an inclusive 4×4 block, and
`replace((0,0),(3,3),·)` on the new 3×3 grid builds indices `0..3`, which are
out of bounds. -/
theorem resize_grow_ok_shrink_index_error :
    ((({ grid_max := [9, 9], dimension := 2,
         grid := { shape := [10, 10], cells := fun _ => Material.AIR } } :
           WorldModelND).fill [2, 2] [4, 4] Material.WALL).bind
      (fun wA => (WorldManager.resize
          { world := wA, current_material := Material.AIR } [20, 20]).map
        (fun mb => (mb.2, mb.1.world.grid.shape,
          mb.1.world.grid.cells [2, 2], mb.1.world.grid.cells [4, 4],
          mb.1.world.grid.cells [5, 5], mb.1.world.grid.cells [15, 3]))) =
      .ok (true, [20, 20], Material.WALL, Material.WALL,
        Material.AIR, Material.AIR)) ∧
    ((({ grid_max := [9, 9], dimension := 2,
         grid := { shape := [10, 10], cells := fun _ => Material.AIR } } :
           WorldModelND).fill [2, 2] [4, 4] Material.WALL).bind
      (fun wA => WorldManager.resize
          { world := wA, current_material := Material.AIR } [3, 3]) =
      .error .indexError) :=
  ⟨rfl, rfl⟩

/-! ### Projection: helper lemmas -/

theorem mem_shift {ax : List ℕ} {k : ℕ} :
    (k ∈ (ax.filter fun a => decide (0 < a)).map (· - 1)) ↔ k + 1 ∈ ax := by
  rw [List.mem_map]
  constructor
  · rintro ⟨b, hb, rfl⟩
    rw [List.mem_filter, decide_eq_true_iff] at hb
    have : b - 1 + 1 = b := by omega
    rw [this]
    exact hb.1
  · intro h
    exact ⟨k + 1, by rw [List.mem_filter, decide_eq_true_iff]; exact ⟨h, by omega⟩,
      by omega⟩

theorem mem_map_pred {ax : List ℕ} (h1 : ∀ a ∈ ax, 1 ≤ a) {k : ℕ} :
    (k ∈ ax.map (· - 1)) ↔ k + 1 ∈ ax := by
  rw [List.mem_map]
  constructor
  · rintro ⟨b, hb, rfl⟩
    have := h1 b hb
    have hb1 : b - 1 + 1 = b := by omega
    rw [hb1]
    exact hb
  · intro h
    exact ⟨k + 1, h, by omega⟩

theorem posOf_map_pred {a : ℕ} :
    ∀ (l : List ℕ), (∀ b ∈ l, 1 ≤ b) →
      posOf (l.map (· - 1)) a = posOf l (a + 1)
  | [], _ => rfl
  | b :: t, h => by
    unfold posOf
    rw [List.map_cons, List.findIdx_cons, List.findIdx_cons]
    have hb := h b (List.mem_cons_self b t)
    have hdec : (decide (b - 1 = a)) = (decide (b = a + 1)) := by
      apply decide_eq_decide.mpr
      omega
    rw [hdec]
    cases hbe : decide (b = a + 1) with
    | true => rfl
    | false =>
      simp only [cond_false]
      have := posOf_map_pred (a := a) t
        (fun x hx => h x (List.mem_cons_of_mem _ hx))
      unfold posOf at this
      rw [this]

/-- Model of `np.delete`, unfolded one position at a time: position 0 is dropped iff
`0 ∈ ax`, and the remaining positions are shifted down by one. -/
theorem npDelete_cons (x : ℕ) (rest ax : List ℕ) :
    npDelete (x :: rest) ax =
      (if 0 ∈ ax then [] else [x]) ++
        npDelete rest ((ax.filter fun a => decide (0 < a)).map (· - 1)) := by
  unfold npDelete
  rw [List.enum_cons', List.filter_cons, List.filter_map]
  have hpred : ((fun (ia : ℕ × ℕ) => decide (ia.1 ∉ ax)) ∘ Prod.map (· + 1) id) =
      fun (ia : ℕ × ℕ) =>
        decide (ia.1 ∉ (ax.filter fun a => decide (0 < a)).map (· - 1)) := by
    funext ia
    simp only [Function.comp_apply, Prod.map_fst]
    apply decide_eq_decide.mpr
    rw [mem_shift]
  by_cases h0 : (0 : ℕ) ∈ ax
  · have : (decide (((0 : ℕ), x).1 ∉ ax)) = false := by
      simp only [decide_eq_false_iff_not, Decidable.not_not]
      exact h0
    rw [this, if_neg (by simp), if_pos h0, List.nil_append, List.map_map, hpred]
    apply List.map_congr_left
    intro ia _
    rfl
  · have : (decide (((0 : ℕ), x).1 ∉ ax)) = true := by
      rw [decide_eq_true_iff]
      exact h0
    rw [this, if_pos rfl, if_neg h0, List.map_cons, List.map_map, hpred]
    rfl

theorem keptCoords_cons_kept {ax' : List ℕ} (h1 : ∀ a ∈ ax', 1 ≤ a)
    (i : ℕ) (c : List ℕ) :
    keptCoords (0 :: ax') (i :: c) = i :: keptCoords (ax'.map (· - 1)) c := by
  unfold keptCoords
  rw [List.map_cons, List.getD_cons_zero, List.map_map]
  congr 1
  apply List.map_congr_left
  intro a ha
  have := h1 a ha
  simp only [Function.comp_apply]
  cases a with
  | zero => omega
  | succ b =>
    have hb1 : b + 1 - 1 = b := by omega
    rw [List.getD_cons_succ, hb1]

theorem keptCoords_cons_skip {ax : List ℕ} (h1 : ∀ a ∈ ax, 1 ≤ a)
    (i : ℕ) (c : List ℕ) :
    keptCoords ax (i :: c) = keptCoords (ax.map (· - 1)) c := by
  unfold keptCoords
  rw [List.map_map]
  apply List.map_congr_left
  intro a ha
  have := h1 a ha
  simp only [Function.comp_apply]
  cases a with
  | zero => omega
  | succ b =>
    have hb1 : b + 1 - 1 = b := by omega
    rw [List.getD_cons_succ, hb1]

theorem mergeIdx_cons_kept {ax' : List ℕ} (h1 : ∀ a ∈ ax', 1 ≤ a)
    (d : ℕ) (i₀ : ℕ) (idx' c : List ℕ) :
    mergeIdx (0 :: ax') (d + 1) (i₀ :: idx') c =
      i₀ :: mergeIdx (ax'.map (· - 1)) d idx' c := by
  unfold mergeIdx
  rw [List.range_succ_eq_map, List.map_cons, List.map_map]
  refine List.cons_eq_cons.mpr ⟨?_, ?_⟩
  · show (if (0 : ℕ) ∈ 0 :: ax' then (i₀ :: idx').getD (posOf (0 :: ax') 0) 0
      else c.getD (List.countP (fun b => decide (b ∉ 0 :: ax'))
        (List.range 0)) 0) = i₀
    rw [if_pos (List.mem_cons_self 0 ax')]
    unfold posOf
    rw [List.findIdx_cons]
    norm_num
  · apply List.map_congr_left
    intro a ha
    simp only [Function.comp_apply, Nat.succ_eq_add_one]
    by_cases hmem : a + 1 ∈ ax'
    · have hmem0 : a + 1 ∈ 0 :: ax' := List.mem_cons_of_mem _ hmem
      have hmemm : a ∈ ax'.map (· - 1) := (mem_map_pred h1).mpr hmem
      rw [if_pos hmem0, if_pos hmemm]
      unfold posOf
      rw [List.findIdx_cons]
      have hd : (decide ((0 : ℕ) = a + 1)) = false := by simp
      rw [hd, cond_false, List.getD_cons_succ]
      have := posOf_map_pred (a := a) ax' h1
      unfold posOf at this
      rw [this]
    · have hmem0 : a + 1 ∉ 0 :: ax' := by
        intro hc
        cases hc with
        | tail _ h => exact hmem h
      have hmemm : a ∉ ax'.map (· - 1) := fun hc => hmem ((mem_map_pred h1).mp hc)
      rw [if_neg hmem0, if_neg hmemm]
      congr 1
      rw [List.range_succ_eq_map, List.countP_cons, List.countP_map]
      have h0 : (decide ((0 : ℕ) ∉ 0 :: ax')) = false := by simp
      rw [h0, if_neg (by simp)]
      rw [Nat.add_zero]
      apply List.countP_congr
      intro b hb
      simp only [Function.comp_apply, Nat.succ_eq_add_one,
        decide_eq_true_iff]
      rw [mem_map_pred h1]
      constructor
      · intro hc hc2
        exact hc (List.mem_cons_of_mem _ hc2)
      · intro hc hc2
        cases hc2 with
        | tail _ hh => exact hc hh

theorem mergeIdx_cons_skip {ax : List ℕ} (h1 : ∀ a ∈ ax, 1 ≤ a)
    (d : ℕ) (i : ℕ) (idx c : List ℕ) :
    mergeIdx ax (d + 1) idx (i :: c) =
      i :: mergeIdx (ax.map (· - 1)) d idx c := by
  have h0 : (0 : ℕ) ∉ ax := fun hc => by have := h1 0 hc; omega
  unfold mergeIdx
  rw [List.range_succ_eq_map, List.map_cons, List.map_map]
  refine List.cons_eq_cons.mpr ⟨?_, ?_⟩
  · show (if (0 : ℕ) ∈ ax then idx.getD (posOf ax 0) 0
      else (i :: c).getD (List.countP (fun b => decide (b ∉ ax))
        (List.range 0)) 0) = i
    rw [if_neg h0]
    rfl
  · apply List.map_congr_left
    intro a ha
    simp only [Function.comp_apply, Nat.succ_eq_add_one]
    by_cases hmem : a + 1 ∈ ax
    · have hmemm : a ∈ ax.map (· - 1) := (mem_map_pred h1).mpr hmem
      rw [if_pos hmem, if_pos hmemm]
      have := posOf_map_pred (a := a) ax h1
      rw [this]
    · have hmemm : a ∉ ax.map (· - 1) := fun hc => hmem ((mem_map_pred h1).mp hc)
      rw [if_neg hmem, if_neg hmemm]
      rw [List.range_succ_eq_map, List.countP_cons, List.countP_map]
      have hp0 : (decide ((0 : ℕ) ∉ ax)) = true := by
        rw [decide_eq_true_iff]
        exact h0
      rw [hp0, if_pos rfl]
      have hcong : (List.countP ((fun b => decide (b ∉ ax)) ∘ Nat.succ)
          (List.range a)) = List.countP (fun b => decide (b ∉ ax.map (· - 1)))
          (List.range a) := by
        apply List.countP_congr
        intro b hb
        simp only [Function.comp_apply, Nat.succ_eq_add_one,
          decide_eq_true_iff]
        rw [mem_map_pred h1]
      rw [hcong, List.getD_cons_succ]

theorem flatMap_congr_left {α β : Type} {l : List α} {f g : α → List β}
    (h : ∀ x ∈ l, f x = g x) : l.flatMap f = l.flatMap g := by
  unfold List.flatMap
  exact congrArg List.flatten (List.map_congr_left h)

theorem flatMap_eq_of_unique {α : Type} (s i₀ : ℕ) (hi : i₀ < s) (L : List α) :
    ((List.range s).flatMap fun i => if i = i₀ then L else []) = L := by
  induction s with
  | zero => omega
  | succ n ih =>
    rw [List.range_succ, List.flatMap_append]
    by_cases hn : i₀ = n
    · subst hn
      have hz : ((List.range i₀).flatMap fun i => if i = i₀ then L else []) = [] := by
        rw [List.flatMap_eq_nil_iff]
        intro x hx
        rw [List.mem_range] at hx
        rw [if_neg (by omega)]
      rw [hz, List.nil_append]
      show (if i₀ = i₀ then L else []) ++ [].flatMap _ = L
      rw [if_pos rfl]
      simp
    · have hi' : i₀ < n := by omega
      rw [ih hi']
      show L ++ ((if n = i₀ then L else []) ++ [].flatMap _) = L
      rw [if_neg (fun h => hn h.symm)]
      simp

theorem getD_cons_of_pos {α : Type} {x : α} {l : List α} {b : ℕ} (h : 1 ≤ b)
    (d : α) : (x :: l).getD b d = l.getD (b - 1) d := by
  cases b with
  | zero => omega
  | succ m => simp

/-- The central combinatorial fact behind the projection: filtering the full
row-major enumeration of the source grid down to the coordinates that agree
with `idx` on the kept axes yields exactly the merged coordinates of the
row-major enumeration of the collapsed extents, in the same order. -/
theorem coordEnum_filter_eq (shape : List ℕ) :
    ∀ (ax idx : List ℕ),
      List.Pairwise (· < ·) ax →
      (∀ a ∈ ax, a < shape.length) →
      idx.length = ax.length →
      (∀ k, k < ax.length → idx.getD k 0 < shape.getD (ax.getD k 0) 0) →
      (coordEnum shape).filter (fun c => decide (keptCoords ax c = idx)) =
        (coordEnum (npDelete shape ax)).map (mergeIdx ax shape.length idx) := by
  induction shape with
  | nil =>
    intro ax idx hsort hax hlen hval
    have hax0 : ax = [] := by
      cases ax with
      | nil => rfl
      | cons a t => exact absurd (hax a (List.mem_cons_self a t)) (by simp)
    subst hax0
    have hidx0 : idx = [] := List.length_eq_zero.mp (by simpa using hlen)
    subst hidx0
    rfl
  | cons s rest ih =>
    intro ax idx hsort hax hlen hval
    by_cases h0 : (0 : ℕ) ∈ ax
    · -- axis 0 is kept
      obtain ⟨ax', rfl⟩ : ∃ ax', ax = 0 :: ax' := by
        cases ax with
        | nil => cases h0
        | cons a t =>
          rcases List.mem_cons.mp h0 with h | h
          · exact ⟨t, by rw [← h]⟩
          · have := (List.pairwise_cons.mp hsort).1 0 h
            omega
      have h1 : ∀ a ∈ ax', 1 ≤ a := by
        intro a ha
        have := (List.pairwise_cons.mp hsort).1 a ha
        omega
      obtain ⟨i₀, idx', rfl⟩ : ∃ i₀ idx', idx = i₀ :: idx' := by
        cases idx with
        | nil => simp at hlen
        | cons i j => exact ⟨i, j, rfl⟩
      have hi₀ : i₀ < s := by
        have h := hval 0 (by simp)
        simpa using h
      have hLHS : (coordEnum (s :: rest)).filter
          (fun c => decide (keptCoords (0 :: ax') c = i₀ :: idx')) =
          ((coordEnum rest).filter
            (fun c => decide (keptCoords (ax'.map (· - 1)) c = idx'))).map
            (i₀ :: ·) := by
        show ((List.range s).flatMap fun i => (coordEnum rest).map (i :: ·)).filter
            (fun c => decide (keptCoords (0 :: ax') c = i₀ :: idx')) = _
        rw [List.filter_flatMap]
        have hpt : ∀ i ∈ List.range s,
            ((coordEnum rest).map (i :: ·)).filter
              (fun c => decide (keptCoords (0 :: ax') c = i₀ :: idx')) =
            (if i = i₀ then
              ((coordEnum rest).filter
                (fun c => decide (keptCoords (ax'.map (· - 1)) c = idx'))).map
                (i₀ :: ·)
            else []) := by
          intro i hi
          rw [List.filter_map]
          by_cases hii : i = i₀
          · subst hii
            rw [if_pos rfl]
            congr 1
            apply List.filter_congr
            intro c hc
            simp only [Function.comp_apply]
            rw [keptCoords_cons_kept h1]
            apply decide_eq_decide.mpr
            constructor
            · intro hh
              exact (List.cons_eq_cons.mp hh).2
            · intro hh
              rw [hh]
          · rw [if_neg hii]
            have hz : (coordEnum rest).filter
                ((fun c => decide (keptCoords (0 :: ax') c = i₀ :: idx')) ∘
                  (i :: ·)) = [] := by
              rw [List.filter_eq_nil_iff]
              intro c hc hpc
              simp only [Function.comp_apply] at hpc
              rw [keptCoords_cons_kept h1, decide_eq_true_iff] at hpc
              exact hii (List.cons_eq_cons.mp hpc).1
            rw [hz, List.map_nil]
        rw [flatMap_congr_left hpt]
        exact flatMap_eq_of_unique s i₀ hi₀ _
      have hdel : npDelete (s :: rest) (0 :: ax') =
          npDelete rest (ax'.map (· - 1)) := by
        rw [npDelete_cons, if_pos (List.mem_cons_self 0 ax'), List.nil_append]
        congr 2
        rw [List.filter_cons, if_neg (by simp)]
        exact List.filter_eq_self.mpr
          (fun a ha => by rw [decide_eq_true_iff]; have := h1 a ha; omega)
      have hRHS : (coordEnum (npDelete (s :: rest) (0 :: ax'))).map
          (mergeIdx (0 :: ax') (s :: rest).length (i₀ :: idx')) =
          ((coordEnum (npDelete rest (ax'.map (· - 1)))).map
            (mergeIdx (ax'.map (· - 1)) rest.length idx')).map (i₀ :: ·) := by
        rw [hdel, List.length_cons]
        rw [List.map_congr_left
          (fun c _ => mergeIdx_cons_kept h1 rest.length i₀ idx' c)]
        rw [List.map_map]
        exact List.map_congr_left (fun c _ => rfl)
      rw [hLHS, hRHS]
      congr 1
      apply ih
      · rw [List.pairwise_map]
        exact (hsort.of_cons).imp_of_mem
          (fun {a b} ha hb hab => by
            have := h1 a ha
            omega)
      · intro a ha
        obtain ⟨b, hb, rfl⟩ := List.mem_map.mp ha
        have := hax b (List.mem_cons_of_mem _ hb)
        have := h1 b hb
        simp only [List.length_cons] at *
        omega
      · rw [List.length_map]
        simpa using hlen
      · intro k hk
        rw [List.length_map] at hk
        have hv := hval (k + 1) (by simpa using hk)
        rw [List.getD_cons_succ, List.getD_cons_succ] at hv
        have hmem : ax'.getD k 0 ∈ ax' := by
          rw [getD_eq_getElem hk 0]
          exact List.getElem_mem hk
        have hb1 : 1 ≤ ax'.getD k 0 := h1 _ hmem
        rw [getD_map_of_lt _ hk 0 0]
        rw [getD_cons_of_pos hb1 0] at hv
        exact hv
    · -- axis 0 is collapsed
      have h1 : ∀ a ∈ ax, 1 ≤ a := by
        intro a ha
        cases a with
        | zero => exact absurd ha h0
        | succ b => omega
      have hfilter_ax : ax.filter (fun a => decide (0 < a)) = ax :=
        List.filter_eq_self.mpr
          (fun a ha => by rw [decide_eq_true_iff]; have := h1 a ha; omega)
      have hdel : npDelete (s :: rest) ax =
          s :: npDelete rest (ax.map (· - 1)) := by
        rw [npDelete_cons, if_neg h0, hfilter_ax]
        rfl
      have hLHS : (coordEnum (s :: rest)).filter
          (fun c => decide (keptCoords ax c = idx)) =
          (List.range s).flatMap fun i =>
            ((coordEnum rest).filter
              (fun c => decide (keptCoords (ax.map (· - 1)) c = idx))).map
              (i :: ·) := by
        show ((List.range s).flatMap fun i => (coordEnum rest).map (i :: ·)).filter
            (fun c => decide (keptCoords ax c = idx)) = _
        rw [List.filter_flatMap]
        apply flatMap_congr_left
        intro i hi
        rw [List.filter_map]
        congr 1
        apply List.filter_congr
        intro c hc
        simp only [Function.comp_apply]
        rw [keptCoords_cons_skip h1]
      have hRHS : (coordEnum (npDelete (s :: rest) ax)).map
          (mergeIdx ax (s :: rest).length idx) =
          (List.range s).flatMap fun i =>
            ((coordEnum (npDelete rest (ax.map (· - 1)))).map
              (mergeIdx (ax.map (· - 1)) rest.length idx)).map (i :: ·) := by
        rw [hdel, List.length_cons]
        show ((List.range s).flatMap fun i =>
          (coordEnum (npDelete rest (ax.map (· - 1)))).map (i :: ·)).map
            (mergeIdx ax (rest.length + 1) idx) = _
        rw [List.map_flatMap]
        apply flatMap_congr_left
        intro i hi
        rw [List.map_map, List.map_map]
        apply List.map_congr_left
        intro c hc
        simp only [Function.comp_apply]
        exact mergeIdx_cons_skip h1 rest.length i idx c
      rw [hLHS, hRHS]
      apply flatMap_congr_left
      intro i hi
      congr 1
      apply ih
      · rw [List.pairwise_map]
        exact hsort.imp_of_mem
          (fun {a b} ha hb hab => by
            have := h1 a ha
            omega)
      · intro a ha
        obtain ⟨b, hb, rfl⟩ := List.mem_map.mp ha
        have := hax b hb
        have := h1 b hb
        simp only [List.length_cons] at *
        omega
      · rw [List.length_map]
        exact hlen
      · intro k hk
        rw [List.length_map] at hk
        have hv := hval k hk
        have hmem : ax.getD k 0 ∈ ax := by
          rw [getD_eq_getElem hk 0]
          exact List.getElem_mem hk
        have hb1 : 1 ≤ ax.getD k 0 := h1 _ hmem
        rw [getD_map_of_lt _ hk 0 0]
        rw [getD_cons_of_pos hb1 0] at hv
        exact hv

theorem find?_getD_zero_of_all {l : List ℤ} (h : ∀ v ∈ l, v = 0) :
    ((l.find? fun v => decide (v ≠ 0)).getD 0) = 0 := by
  have hn : l.find? (fun v => decide (v ≠ 0)) = none := by
    rw [List.find?_eq_none]
    intro x hx
    simp [h x hx]
  rw [hn]
  rfl

theorem find?_getD_first_nonzero :
    ∀ (l : List ℤ) (k : ℕ), k < l.length → l.getD k 0 ≠ 0 →
      (∀ j, j < k → l.getD j 0 = 0) →
      ((l.find? fun v => decide (v ≠ 0)).getD 0) = l.getD k 0
  | [], k => by
    intro h
    simp at h
  | a :: t, 0 => by
    intro _ hnz _
    rw [List.getD_cons_zero] at hnz ⊢
    have hd : (decide (a ≠ 0)) = true := by
      rw [decide_eq_true_iff]
      exact hnz
    rw [List.find?_cons, hd]
    rfl
  | a :: t, k + 1 => by
    intro hk hnz hz
    have ha : a = 0 := by
      have := hz 0 (by omega)
      simpa using this
    have hd : (decide (a ≠ 0)) = false := by simp [ha]
    rw [List.getD_cons_succ] at hnz
    rw [List.getD_cons_succ]
    have hrec := find?_getD_first_nonzero t k (by simpa using hk) hnz
      (fun j hj => by
        have := hz (j + 1) (by omega)
        simpa using this)
    rw [List.find?_cons, hd]
    exact hrec

theorem npUnique_mem (l : List ℕ) (a : ℕ) : a ∈ npUnique l ↔ a ∈ l := by
  unfold npUnique
  rw [List.mem_insertionSort, List.mem_dedup]

theorem npUnique_sorted (l : List ℕ) : List.Pairwise (· < ·) (npUnique l) := by
  have hnd : (npUnique l).Nodup :=
    (List.perm_insertionSort (· ≤ ·) l.dedup).symm.nodup (List.nodup_dedup l)
  have hle : (npUnique l).Sorted (· ≤ ·) :=
    List.sorted_insertionSort (· ≤ ·) l.dedup
  exact hle.lt_of_le hnd

/-- C4: for every source grid and every axis set (elements drawn from the
source's axes, as the spec requires) with `|A| ≤ n`, `ProjectMD.projection`
succeeds and returns a grid of dimension `|A|` whose shape is the source
shape restricted to the kept axes (de-duplicated, sorted ascending by
`np.unique`).  For every valid output coordinate `idx`, writing `vals` for
the cell values of *all* source coordinates that agree with `idx` on the kept
axes, taken in ascending flattened-index order: if all of them are AIR the
output cell is AIR, and otherwise the output cell is the first non-AIR value
among them. -/
theorem projection_spec (axes : List ℕ) (g : NDArray)
    (hlen : (npUnique axes).length ≤ g.shape.length)
    (hax : ∀ a ∈ axes, a < g.shape.length) :
    List.Pairwise (· < ·) (npUnique axes) ∧
    (∀ a, a ∈ npUnique axes ↔ a ∈ axes) ∧
    ∃ out, ProjectMD.projection axes g = .ok out ∧
      out.shape = (npUnique axes).map (fun a => g.shape.getD a 0) ∧
      out.shape.length = (npUnique axes).length ∧
      (∀ idx, idx.length = (npUnique axes).length →
        (∀ k, k < (npUnique axes).length →
          idx.getD k 0 < g.shape.getD ((npUnique axes).getD k 0) 0) →
        ∀ vals, vals = ((coordEnum g.shape).filter
            (fun c => decide (keptCoords (npUnique axes) c = idx))).map g.cells →
          ((∀ v ∈ vals, v = Material.AIR) → out.cells idx = Material.AIR) ∧
          (∀ k, k < vals.length → vals.getD k 0 ≠ Material.AIR →
            (∀ j, j < k → vals.getD j 0 = Material.AIR) →
            out.cells idx = vals.getD k 0)) := by
  have hsorted := npUnique_sorted axes
  have hmem := npUnique_mem axes
  have haxu : ∀ a ∈ npUnique axes, a < g.shape.length :=
    fun a ha => hax a ((hmem a).mp ha)
  have haxd : ((npUnique axes).all fun a => decide (a < g.shape.length)) = true := by
    rw [List.all_eq_true]
    intro a ha
    rw [decide_eq_true_iff]
    exact haxu a ha
  refine ⟨hsorted, hmem, ?_⟩
  unfold ProjectMD.projection
  rw [if_neg (by omega), if_pos haxd]
  refine ⟨_, rfl, rfl, by rw [List.length_map], ?_⟩
  intro idx hidxlen hidxval vals hvals
  have hfilter := coordEnum_filter_eq g.shape (npUnique axes) idx hsorted haxu
    hidxlen hidxval
  have hv : vals = (coordEnum (npDelete g.shape (npUnique axes))).map
      (fun c => g.cells (mergeIdx (npUnique axes) g.shape.length idx c)) := by
    rw [hvals, hfilter, List.map_map]
    rfl
  constructor
  · intro hall
    show (((coordEnum (npDelete g.shape (npUnique axes))).map fun c =>
        g.cells (mergeIdx (npUnique axes) g.shape.length idx c)).find?
          (fun v => decide (v ≠ 0))).getD 0 = Material.AIR
    rw [← hv]
    apply find?_getD_zero_of_all
    exact hall
  · intro k hk hnz hz
    show (((coordEnum (npDelete g.shape (npUnique axes))).map fun c =>
        g.cells (mergeIdx (npUnique axes) g.shape.length idx c)).find?
          (fun v => decide (v ≠ 0))).getD 0 = vals.getD k 0
    rw [← hv]
    exact find?_getD_first_nonzero vals k hk hnz hz

/-- Witness for C4: the spec's own example — a 2×2×2 grid whose only WALL is
at storage coordinate `(1,0,0)`, projected onto axes `{1, 2}`. -/
theorem projection_spec_witness :
    List.Pairwise (· < ·) (npUnique [1, 2]) ∧
    (∀ a, a ∈ npUnique [1, 2] ↔ a ∈ [1, 2]) ∧
    ∃ out, ProjectMD.projection [1, 2]
        { shape := [2, 2, 2],
          cells := fun j => if j = [1, 0, 0] then Material.WALL
                            else Material.AIR } = .ok out ∧
      out.shape = (npUnique [1, 2]).map
        (fun a => [2, 2, 2].getD a 0) ∧
      out.shape.length = (npUnique [1, 2]).length ∧
      (∀ idx, idx.length = (npUnique [1, 2]).length →
        (∀ k, k < (npUnique [1, 2]).length →
          idx.getD k 0 < [2, 2, 2].getD ((npUnique [1, 2]).getD k 0) 0) →
        ∀ vals, vals = ((coordEnum [2, 2, 2]).filter
            (fun c => decide (keptCoords (npUnique [1, 2]) c = idx))).map
            (fun j => if j = [1, 0, 0] then Material.WALL else Material.AIR) →
          ((∀ v ∈ vals, v = Material.AIR) → out.cells idx = Material.AIR) ∧
          (∀ k, k < vals.length → vals.getD k 0 ≠ Material.AIR →
            (∀ j, j < k → vals.getD j 0 = Material.AIR) →
            out.cells idx = vals.getD k 0)) :=
  projection_spec [1, 2]
    { shape := [2, 2, 2],
      cells := fun j => if j = [1, 0, 0] then Material.WALL else Material.AIR }
    (by decide) (by decide)
